import Mathlib

/-!
Verification development for the queued hg backing store
(eden/fs/store/hg/HgQueuedBackingStore.cpp) and the FUSE channel
(eden/fs/fuse/FuseChannel.h).

Pure shallow embedding: hashes, proxy hashes, blob payloads and exception
identities are natural numbers; folly promises become event lists recording
which request id was resolved with which outcome; the concurrent queue and
the channel state machine are explicit state-passing functions.
-/

set_option maxHeartbeats 1000000

/-! ## Basic data model -/

abbrev Hash := Nat
abbrev ProxyHash := Nat
abbrev Blob := Nat
abbrev ErrId := Nat

/-- A queued HgImportRequest of BlobImport variant: the hash being imported and
the identity of its completion promise. -/
structure BlobImportReq where
  hash : Hash
  reqId : Nat
deriving DecidableEq, Inhabited

/-- The value a request promise is resolved with: a blob value (setValue /
setTry with success) or an exception (setException / setTry with failure). -/
inductive Resolution where
  | value (b : Blob)
  | exc (e : ErrId)
deriving DecidableEq, Inhabited

/-- Environment of processBlobImportRequests: the outcome of the batched
HgProxyHash getBatch call (wholesale failure or a per-hash proxy), the local
hgcache (getBlobFromHgCache) and the remote importer (fetchBlobFromHgImporter). -/
structure BlobEnv where
  getBatchError : Option ErrId
  proxyOf : Hash → ProxyHash
  hgCache : Hash → ProxyHash → Option Blob
  fetchRemote : ProxyHash → Except ErrId Blob

/-- Unordered removal from a vector: std swap of the element at index i with
the last element followed by pop_back. -/
def swapPop {α : Type} [Inhabited α] (l : List α) (i : Nat) : List α :=
  (l.set i (l.getD (l.length - 1) default)).dropLast

/-- Result of the local-cache pass of processBlobImportRequests: the two
vectors after the swap-and-pop loop, the promise resolutions performed, and
the hgcache lookups attempted. -/
structure CachePassOut where
  requests : List BlobImportReq
  proxyHashes : List ProxyHash
  events : List (Nat × Resolution)
  cacheLookups : List (Hash × ProxyHash)
deriving DecidableEq

/-- The local-cache loop of processBlobImportRequests: walk the requests
vector with an index; on an hgcache hit resolve the promise and swap-and-pop
the entry out of both vectors in lockstep without advancing the index, on a
miss advance both iterators. -/
def cachePassGo (env : BlobEnv) (reqs : List BlobImportReq) (proxies : List ProxyHash)
    (i : Nat) (events : List (Nat × Resolution)) (lookups : List (Hash × ProxyHash)) :
    CachePassOut :=
  if h : i < reqs.length then
    let r := reqs.get ⟨i, h⟩
    let p := proxies.getD i 0
    match env.hgCache r.hash p with
    | some b =>
        cachePassGo env (swapPop reqs i) (swapPop proxies i) i
          (events ++ [(r.reqId, Resolution.value b)]) (lookups ++ [(r.hash, p)])
    | none =>
        cachePassGo env reqs proxies (i + 1) events (lookups ++ [(r.hash, p)])
  else
    ⟨reqs, proxies, events, lookups⟩
termination_by reqs.length - i
decreasing_by
  · simp only [swapPop, List.length_dropLast, List.length_set]
    omega
  · omega

/-- The remote pass of processBlobImportRequests: every remaining request is
fetched from the HgImporter with the proxy hash paired with it and its promise
is resolved with the per-request result (setTry). -/
def remotePass (env : BlobEnv) (pairs : List (BlobImportReq × ProxyHash)) :
    List (Nat × Resolution) :=
  pairs.map (fun rp =>
    (rp.1.reqId,
      match env.fetchRemote rp.2 with
      | Except.ok b => Resolution.value b
      | Except.error e => Resolution.exc e))

/-- Observable behaviour of one call to processBlobImportRequests: the
promise resolutions (in order), the hgcache lookups and the remote fetches
that were attempted. -/
structure ProcessBlobOut where
  events : List (Nat × Resolution)
  cacheLookups : List (Hash × ProxyHash)
  remoteFetches : List ProxyHash
deriving DecidableEq

/-- HgQueuedBackingStore::processBlobImportRequests: collect the hashes, do
the batched proxy-hash lookup (failing every request and returning on a
wholesale failure), run the local-cache swap-and-pop pass, then the remote
pass over the remaining request and proxy vectors. -/
def processBlobImportRequests (env : BlobEnv) (requests : List BlobImportReq) :
    ProcessBlobOut :=
  let hashes := requests.map (fun r => r.hash)
  match env.getBatchError with
  | some e =>
      ⟨requests.map (fun r => (r.reqId, Resolution.exc e)), [], []⟩
  | none =>
      let proxyHashes := hashes.map env.proxyOf
      let out := cachePassGo env requests proxyHashes 0 [] []
      let pairs := out.requests.zip out.proxyHashes
      ⟨out.events ++ remotePass env pairs, out.cacheLookups,
        pairs.map (fun rp => rp.2)⟩

/-- The per-request outcome the pipeline is expected to deliver when the
batched proxy-hash lookup succeeds: the hgcache value of the request's own
hash and proxy if present, otherwise its own remote fetch result. -/
def outcomeOf (env : BlobEnv) (r : BlobImportReq) : Resolution :=
  match env.hgCache r.hash (env.proxyOf r.hash) with
  | some b => Resolution.value b
  | none =>
      match env.fetchRemote (env.proxyOf r.hash) with
      | Except.ok b => Resolution.value b
      | Except.error e => Resolution.exc e

/-- Whether a request paired with a proxy hash hits the local hgcache. -/
def isHit (env : BlobEnv) (rp : BlobImportReq × ProxyHash) : Bool :=
  (env.hgCache rp.1.hash rp.2).isSome

/-- The promise resolution performed for a cache hit. -/
def hitEvent (env : BlobEnv) (rp : BlobImportReq × ProxyHash) : Nat × Resolution :=
  (rp.1.reqId, Resolution.value ((env.hgCache rp.1.hash rp.2).getD 0))

/-- The promise resolution performed by the remote pass for a pair. -/
def remoteEvent (env : BlobEnv) (rp : BlobImportReq × ProxyHash) : Nat × Resolution :=
  (rp.1.reqId,
    match env.fetchRemote rp.2 with
    | Except.ok b => Resolution.value b
    | Except.error e => Resolution.exc e)

/-! ## Import requests, the queue and the worker loop -/

/-- ImportPriority (the class with static kLow / kNormal / kHigh factories). -/
inductive ImportPriority where
  | kLow
  | kNormal
  | kHigh
deriving DecidableEq, Inhabited

/-- HgImportRequest: tagged union over BlobImport, TreeImport and Prefetch,
each holding its payload, priority, and the identity of its promise. -/
inductive HgImportRequest where
  | blobImport (hash : Hash) (priority : ImportPriority) (reqId : Nat)
  | treeImport (hash : Hash) (priority : ImportPriority) (reqId : Nat)
  | prefetchReq (hashes : List Hash) (priority : ImportPriority) (reqId : Nat)
deriving DecidableEq, Inhabited

/-- The variant tag of an import request. -/
inductive ImportKind where
  | blobKind
  | treeKind
  | prefetchKind
deriving DecidableEq, Inhabited

def HgImportRequest.kind : HgImportRequest → ImportKind
  | HgImportRequest.blobImport _ _ _ => ImportKind.blobKind
  | HgImportRequest.treeImport _ _ _ => ImportKind.treeKind
  | HgImportRequest.prefetchReq _ _ _ => ImportKind.prefetchKind

/-- The three batch processors a dequeued batch can be routed to. -/
inductive ProcessorKind where
  | blobProcessor
  | treeProcessor
  | prefetchProcessor
deriving DecidableEq, Inhabited

/-- The isType dispatch of HgQueuedBackingStore::processRequest on the first
request of a batch. -/
def processorOfReq : HgImportRequest → ProcessorKind
  | HgImportRequest.blobImport _ _ _ => ProcessorKind.blobProcessor
  | HgImportRequest.treeImport _ _ _ => ProcessorKind.treeProcessor
  | HgImportRequest.prefetchReq _ _ _ => ProcessorKind.prefetchProcessor

/-- The routing performed by one iteration of processRequest: an empty batch
breaks the loop, otherwise the entire batch goes to the processor selected by
the first element's variant. -/
def routeBatch (requests : List HgImportRequest) :
    Option (ProcessorKind × List HgImportRequest) :=
  match requests with
  | [] => none
  | first :: rest => some (processorOfReq first, first :: rest)

/-- The import request queue: a stopped flag and the pending requests in
priority order (head first). -/
structure HgImportRequestQueue where
  stopped : Bool
  pending : List HgImportRequest
deriving DecidableEq, Inhabited

/-- Modelled from the spec: the batch taken from the head of the queue by
HgImportRequestQueue::dequeue, whose implementation is not among the sources —
up to maxBatch requests of the same variant as the head. -/
def dequeueBatch (queue : List HgImportRequest) (maxBatch : Nat) :
    List HgImportRequest :=
  match queue with
  | [] => []
  | first :: _ =>
      (queue.takeWhile (fun r => r.kind == first.kind)).take maxBatch

/-- Modelled from the spec: HgImportRequestQueue::dequeue, whose
implementation is not among the sources — after stop every dequeue returns the
empty batch; otherwise a variant-homogeneous batch is taken from the head. -/
def dequeue (q : HgImportRequestQueue) (maxBatch : Nat) :
    List HgImportRequest × HgImportRequestQueue :=
  if q.stopped then ([], q)
  else
    let batch := dequeueBatch q.pending maxBatch
    (batch, { q with pending := q.pending.drop batch.length })

/-- Modelled from the spec: HgImportRequestQueue::stop, whose implementation
is not among the sources — mark the queue stopped so waiters wake and
subsequent dequeues return empty. -/
def HgImportRequestQueue.stop (q : HgImportRequestQueue) : HgImportRequestQueue :=
  { q with stopped := true }

/-- HgQueuedBackingStore::processRequest, the worker loop: dequeue a batch,
exit on an empty batch, otherwise route the whole batch by the variant of its
first element and continue. Returns the routed batches in order. -/
def processRequest (q : HgImportRequestQueue) (maxBatch : Nat) :
    List (ProcessorKind × List HgImportRequest) :=
  match hdq : dequeue q maxBatch with
  | ([], _) => []
  | (first :: rest, q') =>
      (processorOfReq first, first :: rest) :: processRequest q' maxBatch
termination_by q.pending.length
decreasing_by
  simp only [dequeue] at hdq
  split at hdq
  · simp at hdq
  · rw [Prod.mk.injEq] at hdq
    obtain ⟨h1, h2⟩ := hdq
    subst h2
    have hb : 0 < (dequeueBatch q.pending maxBatch).length := by
      rw [h1]; simp
    have hp : q.pending ≠ [] := by
      intro hnil
      rw [hnil] at h1
      simp [dequeueBatch] at h1
    have hpl : 0 < q.pending.length := List.length_pos.mpr hp
    show (q.pending.drop (dequeueBatch q.pending maxBatch).length).length <
      q.pending.length
    simp only [List.length_drop]
    omega

/-- The HgQueuedBackingStore destructor: stop the queue, then join every
worker thread; each worker finishes its processRequest loop against the
stopped queue. Returns what each of the numberThreads workers still
processes after the stop. -/
def destructorDrain (q : HgImportRequestQueue) (maxBatch numberThreads : Nat) :
    List (List (ProcessorKind × List HgImportRequest)) :=
  (List.range numberThreads).map (fun _ => processRequest q.stop maxBatch)

/-! ## getBlob, getTree and prefetchBlobs enqueue paths -/

/-- Environment of HgQueuedBackingStore::getBlob: the synchronous proxy hash
computation and the local datapack store lookup (getBlobLocal). -/
structure StoreEnv where
  proxyCompute : Hash → ProxyHash
  blobLocal : Hash → ProxyHash → Option Blob

/-- The enqueue side of the store: the queue contents and the id the next
created request promise will get. -/
structure QueueState where
  queue : List HgImportRequest
  nextReqId : Nat
deriving DecidableEq, Inhabited

/-- A folly SemiFuture as observed by the caller: already resolved with a
value, or pending on the promise of the enqueued request. -/
inductive SemiFuture (α : Type) where
  | resolved (a : α)
  | pending (reqId : Nat)
deriving DecidableEq

/-- HgQueuedBackingStore::getBlob: compute a fresh proxy hash, try the local
datapack store synchronously; on a hit return an already-resolved future and
enqueue nothing; on a miss enqueue one BlobImport request and return its
future. -/
def getBlob (env : StoreEnv) (st : QueueState) (id : Hash)
    (priority : ImportPriority) : SemiFuture Blob × QueueState :=
  let proxyHash := env.proxyCompute id
  match env.blobLocal id proxyHash with
  | some blob => (SemiFuture.resolved blob, st)
  | none =>
      (SemiFuture.pending st.nextReqId,
        ⟨st.queue ++ [HgImportRequest.blobImport id priority st.nextReqId],
          st.nextReqId + 1⟩)

/-- HgQueuedBackingStore::getTree: unconditionally enqueue one TreeImport
request with the caller's priority and return its future. -/
def getTree (st : QueueState) (id : Hash) (priority : ImportPriority) :
    SemiFuture Nat × QueueState :=
  (SemiFuture.pending st.nextReqId,
    ⟨st.queue ++ [HgImportRequest.treeImport id priority st.nextReqId],
      st.nextReqId + 1⟩)

/-- HgQueuedBackingStore::prefetchBlobs: enqueue one Prefetch request, always
with ImportPriority kNormal, and return its future. -/
def prefetchBlobs (st : QueueState) (ids : List Hash) :
    SemiFuture Unit × QueueState :=
  (SemiFuture.pending st.nextReqId,
    ⟨st.queue ++ [HgImportRequest.prefetchReq ids ImportPriority.kNormal st.nextReqId],
      st.nextReqId + 1⟩)

/-! ## FuseChannel session-complete state machine -/

/-- Events observable by the FuseChannel bookkeeping: completion of the
initialization (successful or failed), a request entering or leaving the
in-flight map, and a worker thread stopping. -/
inductive ChanEvent where
  | initDone (success : Bool)
  | requestStarted
  | requestFinished
  | threadStopped
deriving DecidableEq, Inhabited

/-- The synchronized FuseChannel state relevant to the session-complete
signal: the outcome of initialization, how many worker threads have stopped,
the size of the in-flight request map, and whether sessionCompletePromise has
been fulfilled. -/
structure ChannelState where
  initResult : Option Bool
  stoppedThreads : Nat
  liveRequests : Nat
  sessionCompleteFired : Bool
deriving DecidableEq, Inhabited

/-- The state of a freshly constructed FuseChannel. -/
def initialChannelState : ChannelState :=
  { initResult := none, stoppedThreads := 0, liveRequests := 0,
    sessionCompleteFired := false }

/-- Modelled from the spec: FuseChannel::maybeDispatchSessionComplete, whose
implementation is not among the sources — fulfil sessionCompletePromise only
when initialization succeeded, all worker threads have stopped and no live
request remains, and only if it has not fired yet. -/
def maybeDispatchSessionComplete (numThreads : Nat) (st : ChannelState) :
    ChannelState :=
  if st.initResult = some true ∧ st.stoppedThreads = numThreads ∧
      st.liveRequests = 0 ∧ st.sessionCompleteFired = false then
    { st with sessionCompleteFired := true }
  else st

/-- Modelled from the spec: the FuseChannel bookkeeping update for one event,
whose implementation is not among the sources — initialization completes at
most once; requests enter and leave the in-flight map; threads stop. -/
def applyChanEvent (st : ChannelState) : ChanEvent → ChannelState
  | ChanEvent.initDone ok =>
      if st.initResult = none then { st with initResult := some ok } else st
  | ChanEvent.requestStarted => { st with liveRequests := st.liveRequests + 1 }
  | ChanEvent.requestFinished => { st with liveRequests := st.liveRequests - 1 }
  | ChanEvent.threadStopped => { st with stoppedThreads := st.stoppedThreads + 1 }

/-- One step of the channel state machine: apply the event, then check
whether the session-complete signal must fire. -/
def chanStep (numThreads : Nat) (st : ChannelState) (e : ChanEvent) :
    ChannelState :=
  maybeDispatchSessionComplete numThreads (applyChanEvent st e)

/-- Run the channel state machine over a trace of events. -/
def runTrace (numThreads : Nat) (st : ChannelState) (es : List ChanEvent) :
    ChannelState :=
  es.foldl (chanStep numThreads) st

/-- How many steps of the trace fulfil the session-complete promise. -/
def countFires (numThreads : Nat) (st : ChannelState) :
    List ChanEvent → Nat
  | [] => 0
  | e :: es =>
      (if st.sessionCompleteFired = false ∧
          (chanStep numThreads st e).sessionCompleteFired = true then 1 else 0) +
        countFires numThreads (chanStep numThreads st e) es

/-! ## FuseChannel reply writer -/

/-- Size in bytes of fuse_out_header: a 32-bit len, a 32-bit error and a
64-bit unique. -/
def fuseOutHeaderSize : Nat := 16

/-- fuse_out_header. -/
structure FuseOutHeader where
  len : Nat
  error : Int
  unique : Nat
deriving DecidableEq

/-- Little-endian encoding of a value into a fixed number of bytes. -/
def toLEBytes : Nat → Nat → List Nat
  | 0, _ => []
  | w + 1, v => v % 256 :: toLEBytes w (v / 256)

/-- The 16 wire bytes of a fuse_out_header. -/
def encodeFuseOutHeader (h : FuseOutHeader) : List Nat :=
  toLEBytes 4 (h.len % 2 ^ 32) ++ toLEBytes 4 ((h.error % (2 ^ 32 : Int)).toNat) ++
    toLEBytes 8 (h.unique % 2 ^ 64)

/-- Modelled from the spec: FuseChannel::sendRawReply, whose implementation is
not among the sources — sum the payload buffer lengths plus the header size
into the header's len field, then emit the header followed by the buffers as
one gathered writev. Returns the header actually written and the bytes of the
gathered write. -/
def sendRawReply (header : FuseOutHeader) (buffers : List (List Nat)) :
    FuseOutHeader × List Nat :=
  let total := fuseOutHeaderSize + (buffers.map List.length).sum
  let header' := { header with len := total }
  (header', encodeFuseOutHeader header' ++ buffers.flatten)

/-! ## Import metric watch lists -/

/-- RequestMetricsScope RequestStage enumerator values. -/
def stagePENDING : Nat := 0
def stageLIVE : Nat := 1

/-- HgBackingStore HgImportObject enumerator values. -/
def objBLOB : Nat := 0
def objTREE : Nat := 1
def objPREFETCH : Nat := 2

/-- The six per-stage per-object watch lists. -/
inductive WatchList where
  | pendingBlobWatches
  | pendingTreeWatches
  | pendingPrefetchWatches
  | liveBlobWatches
  | liveTreeWatches
  | livePrefetchWatches
deriving DecidableEq, Inhabited

/-- HgQueuedBackingStore::getPendingImportWatches: switch on the object
enumerator; any other value reaches the EDEN_BUG branch, modelled as none. -/
def getPendingImportWatches (object : Nat) : Option WatchList :=
  if object = objBLOB then some WatchList.pendingBlobWatches
  else if object = objTREE then some WatchList.pendingTreeWatches
  else if object = objPREFETCH then some WatchList.pendingPrefetchWatches
  else none

/-- Modelled from the spec: HgBackingStore::getLiveImportWatches, whose
implementation is not among the sources — the live watch list for each
object, a fatal bug (none) otherwise. -/
def getLiveImportWatches (object : Nat) : Option WatchList :=
  if object = objBLOB then some WatchList.liveBlobWatches
  else if object = objTREE then some WatchList.liveTreeWatches
  else if object = objPREFETCH then some WatchList.livePrefetchWatches
  else none

/-- HgQueuedBackingStore::getImportWatches: switch on the stage enumerator,
delegating to the pending or live lookup; any other value reaches the
EDEN_BUG branch, modelled as none. -/
def getImportWatches (stage object : Nat) : Option WatchList :=
  if stage = stagePENDING then getPendingImportWatches object
  else if stage = stageLIVE then getLiveImportWatches object
  else none

/-! ## Lemmas about swap-and-pop -/

theorem swapPop_length {α : Type} [Inhabited α] (l : List α) (i : Nat) :
    (swapPop l i).length = l.length - 1 := by
  simp [swapPop]

theorem take_set_self {α : Type} :
    ∀ (l : List α) (i : Nat) (x : α), (l.set i x).take i = l.take i
  | [], _, _ => by simp
  | _ :: _, 0, _ => by simp
  | a :: t, i + 1, x => by
      simp only [List.set_cons_succ, List.take_succ_cons]
      rw [take_set_self t i x]

theorem swapPop_take {α : Type} [Inhabited α] (l : List α) (i : Nat)
    (h : i < l.length) : (swapPop l i).take i = l.take i := by
  unfold swapPop
  rw [List.dropLast_eq_take, List.length_set, List.take_take,
    min_eq_left (by omega)]
  exact take_set_self l i _

theorem swapPop_cons_succ {α : Type} [Inhabited α] (a : α) (t : List α) (i : Nat)
    (ht : t ≠ []) : swapPop (a :: t) (i + 1) = a :: swapPop t i := by
  unfold swapPop
  have hlen : (a :: t).length - 1 = t.length := by simp
  rw [hlen]
  have hget : (a :: t).getD t.length default = t.getD (t.length - 1) default := by
    cases t with
    | nil => simp at ht
    | cons b u => simp
  rw [hget, List.set_cons_succ]
  exact List.dropLast_cons_of_ne_nil
    (by simpa using List.ne_nil_of_length_pos (by simpa using List.length_pos.mpr ht))

theorem swapPop_drop_perm {α : Type} [Inhabited α] :
    ∀ (z : List α) (i : Nat), i < z.length →
      ((swapPop z i).drop i).Perm (z.drop (i + 1))
  | [], i, h => by simp at h
  | [a], 0, _ => by simp [swapPop]
  | a :: b :: u, 0, _ => by
      have ht : (b :: u : List α) ≠ [] := by simp
      have hv : (a :: b :: u).getD ((a :: b :: u).length - 1) default =
          (b :: u).getLast ht := by
        rw [List.getLast_eq_getElem]
        simp
      unfold swapPop
      rw [hv]
      simp only [List.set_cons_zero, List.drop_zero]
      rw [List.dropLast_cons_of_ne_nil ht]
      have h2 : ((b :: u).dropLast ++ [(b :: u).getLast ht]).Perm
          ((b :: u).getLast ht :: (b :: u).dropLast) :=
        List.perm_append_singleton _ _
      refine h2.symm.trans ?_
      rw [List.dropLast_concat_getLast ht]
      simp
  | a :: t, i + 1, h => by
      have hit : i < t.length := by simpa using h
      have ht : t ≠ [] := List.ne_nil_of_length_pos (by omega)
      rw [swapPop_cons_succ a t i ht]
      simpa using swapPop_drop_perm t i hit

theorem zip_set {α β : Type} :
    ∀ (a : List α) (b : List β) (i : Nat) (x : α) (y : β),
      (a.set i x).zip (b.set i y) = (a.zip b).set i (x, y)
  | [], _, _, _, _ => by simp
  | _ :: _, [], i, _, _ => by cases i <;> simp
  | _ :: _, _ :: _, 0, _, _ => by simp
  | a :: as, b :: bs, i + 1, x, y => by
      simp only [List.set_cons_succ, List.zip_cons_cons]
      rw [zip_set as bs i x y]

theorem zip_dropLast {α β : Type} :
    ∀ (a : List α) (b : List β), a.length = b.length →
      a.dropLast.zip b.dropLast = (a.zip b).dropLast
  | [], [], _ => by simp
  | [], _ :: _, h => by simp at h
  | _ :: _, [], h => by simp at h
  | [_], [_], _ => by simp
  | _ :: _ :: _, [_], h => by simp at h
  | [_], _ :: _ :: _, h => by simp at h
  | a :: a2 :: as, b :: b2 :: bs, h => by
      have h' : (a2 :: as).length = (b2 :: bs).length := by simpa using h
      simp only [List.dropLast_cons₂, List.zip_cons_cons]
      rw [zip_dropLast (a2 :: as) (b2 :: bs) h']
      cases as <;> cases bs <;> simp_all

theorem getD_in_range {α : Type} [Inhabited α] (l : List α) (k : Nat)
    (hk : k < l.length) : l.getD k default = l.get ⟨k, hk⟩ := by
  simp [List.getD_eq_getElem?_getD, List.getElem?_eq_getElem hk]

theorem swapPop_zip {α β : Type} [Inhabited α] [Inhabited β] :
    ∀ (a : List α) (b : List β) (i : Nat), a.length = b.length →
      (swapPop a i).zip (swapPop b i) = swapPop (a.zip b) i
  | [], [], i, _ => by simp [swapPop]
  | [], _ :: _, _, h => by simp at h
  | _ :: _, [], _, h => by simp at h
  | a0 :: as, b0 :: bs, i, h => by
      have hzl : ((a0 :: as).zip (b0 :: bs)).length = (a0 :: as).length := by
        simp only [List.length_zip, h, Nat.min_self]
      have hlt : (a0 :: as).length - 1 < (a0 :: as).length := by simp
      have hltb : (a0 :: as).length - 1 < (b0 :: bs).length := by omega
      have hltz : (a0 :: as).length - 1 <
          ((a0 :: as).zip (b0 :: bs)).length := by omega
      have hib : (b0 :: bs).length - 1 = (a0 :: as).length - 1 := by rw [h]
      have hiz : ((a0 :: as).zip (b0 :: bs)).length - 1 =
          (a0 :: as).length - 1 := by rw [hzl]
      unfold swapPop
      rw [hib, hiz]
      have hz : ((a0 :: as).zip (b0 :: bs)).getD ((a0 :: as).length - 1)
            default =
          ((a0 :: as).getD ((a0 :: as).length - 1) default,
            (b0 :: bs).getD ((a0 :: as).length - 1) default) := by
        rw [getD_in_range _ _ hlt, getD_in_range _ _ hltb,
          getD_in_range _ _ hltz]
        simp only [List.get_eq_getElem]
        exact List.getElem_zip
      rw [hz, zip_dropLast _ _ (by simpa using h), zip_set]

/-! ## Characterisation of the local-cache pass -/

/-- The cache-miss survivor predicate on a request and proxy pair. -/
def isMiss (env : BlobEnv) (rp : BlobImportReq × ProxyHash) : Bool :=
  !(isHit env rp)

theorem cachePassGo_spec (env : BlobEnv) :
    ∀ (n : Nat) (reqs : List BlobImportReq) (proxies : List ProxyHash) (i : Nat)
      (events : List (Nat × Resolution)) (lookups : List (Hash × ProxyHash)),
      reqs.length - i ≤ n →
      reqs.length = proxies.length →
      (cachePassGo env reqs proxies i events lookups).requests.length =
        (cachePassGo env reqs proxies i events lookups).proxyHashes.length ∧
      ((cachePassGo env reqs proxies i events lookups).requests.zip
          (cachePassGo env reqs proxies i events lookups).proxyHashes).Perm
        ((reqs.zip proxies).take i ++
          ((reqs.zip proxies).drop i).filter (isMiss env)) ∧
      (cachePassGo env reqs proxies i events lookups).events.Perm
        (events ++
          (((reqs.zip proxies).drop i).filter (isHit env)).map (hitEvent env)) := by
  intro n
  induction n with
  | zero =>
    intro reqs proxies i events lookups hn hlen
    have hge : ¬ i < reqs.length := by omega
    have hzlen : (reqs.zip proxies).length = reqs.length := by
      simp [List.length_zip, hlen]
    unfold cachePassGo
    rw [dif_neg hge]
    refine ⟨hlen, ?_, ?_⟩
    · rw [List.take_of_length_le (by omega), List.drop_eq_nil_of_le (by omega)]
      simp
    · rw [List.drop_eq_nil_of_le (by omega)]
      simp
  | succ m ih =>
    intro reqs proxies i events lookups hn hlen
    by_cases h : i < reqs.length
    · have hpl : i < proxies.length := by omega
      have hzlen : (reqs.zip proxies).length = reqs.length := by
        simp [List.length_zip, hlen]
      have hiz : i < (reqs.zip proxies).length := by omega
      have hp : proxies.getD i 0 = proxies[i] := by
        rw [List.getD_eq_getElem?_getD, List.getElem?_eq_getElem hpl]
        rfl
      have hzi : (reqs.zip proxies)[i] = (reqs[i], proxies[i]) :=
        List.getElem_zip
      have hdrop : (reqs.zip proxies).drop i =
          (reqs.zip proxies)[i] :: (reqs.zip proxies).drop (i + 1) :=
        List.drop_eq_getElem_cons hiz
      unfold cachePassGo
      rw [dif_pos h]
      cases hc : env.hgCache (reqs.get ⟨i, h⟩).hash (proxies.getD i 0) with
      | none =>
        have hc2 : env.hgCache reqs[i].hash proxies[i] = none := by
          rw [← hp]
          simpa [List.get_eq_getElem] using hc
        have hmiss : isMiss env ((reqs.zip proxies)[i]) = true := by
          simp [isMiss, isHit, hzi, hc2]
        have hnothit : ¬ isHit env ((reqs.zip proxies)[i]) = true := by
          simp [isHit, hzi, hc2]
        simp only [hc]
        obtain ⟨g1, g2, g3⟩ := ih reqs proxies (i + 1) events
          (lookups ++ [((reqs.get ⟨i, h⟩).hash, proxies.getD i 0)])
          (by omega) hlen
        refine ⟨g1, ?_, ?_⟩
        · refine g2.trans ?_
          rw [List.take_succ, List.getElem?_eq_getElem hiz]
          rw [hdrop, List.filter_cons_of_pos hmiss]
          simp [List.append_assoc]
        · refine g3.trans ?_
          rw [hdrop, List.filter_cons_of_neg hnothit]
      | some b =>
        have hc2 : env.hgCache reqs[i].hash proxies[i] = some b := by
          rw [← hp]
          simpa [List.get_eq_getElem] using hc
        have hhit : isHit env ((reqs.zip proxies)[i]) = true := by
          simp [isHit, hzi, hc2]
        have hnotmiss : ¬ isMiss env ((reqs.zip proxies)[i]) = true := by
          simp [isMiss, isHit, hzi, hc2]
        simp only [hc]
        have hlen' : (swapPop reqs i).length = (swapPop proxies i).length := by
          simp [swapPop_length, hlen]
        obtain ⟨g1, g2, g3⟩ := ih (swapPop reqs i) (swapPop proxies i) i
          (events ++ [((reqs.get ⟨i, h⟩).reqId, Resolution.value b)])
          (lookups ++ [((reqs.get ⟨i, h⟩).hash, proxies.getD i 0)])
          (by rw [swapPop_length]; omega) hlen'
        have hz' : (swapPop reqs i).zip (swapPop proxies i) =
            swapPop (reqs.zip proxies) i := swapPop_zip reqs proxies i hlen
        rw [hz'] at g2 g3
        have hdropP : ((swapPop (reqs.zip proxies) i).drop i).Perm
            ((reqs.zip proxies).drop (i + 1)) :=
          swapPop_drop_perm (reqs.zip proxies) i hiz
        refine ⟨g1, ?_, ?_⟩
        · refine g2.trans ?_
          rw [swapPop_take (reqs.zip proxies) i hiz]
          refine List.Perm.append_left _ ?_
          refine (hdropP.filter (isMiss env)).trans ?_
          rw [hdrop, List.filter_cons_of_neg hnotmiss]
        · refine g3.trans ?_
          have hev : hitEvent env ((reqs.zip proxies)[i]) =
              ((reqs.get ⟨i, h⟩).reqId, Resolution.value b) := by
            simp [hitEvent, hzi, hc2, List.get_eq_getElem]
          rw [hdrop, List.filter_cons_of_pos hhit]
          simp only [List.map_cons, hev]
          rw [List.append_assoc, List.singleton_append]
          refine List.Perm.append_left _ ?_
          exact List.Perm.cons _
            ((hdropP.filter (isHit env)).map (hitEvent env))
    · have hzlen : (reqs.zip proxies).length = reqs.length := by
        simp [List.length_zip, hlen]
      unfold cachePassGo
      rw [dif_neg h]
      refine ⟨hlen, ?_, ?_⟩
      · rw [List.take_of_length_le (by omega),
          List.drop_eq_nil_of_le (by omega)]
        simp
      · rw [List.drop_eq_nil_of_le (by omega)]
        simp

theorem zip_map_proxy (env : BlobEnv) (requests : List BlobImportReq) :
    requests.zip ((requests.map (fun r => r.hash)).map env.proxyOf) =
      requests.map (fun r => (r, env.proxyOf r.hash)) := by
  have h := List.zip_map' (fun r : BlobImportReq => r)
    (fun r => env.proxyOf r.hash) requests
  simpa [List.map_map, Function.comp] using h

theorem filter_map_split {α β : Type} (p : α → Bool) (f g : α → β) :
    ∀ (l : List α),
      ((l.filter p).map f ++ (l.filter (fun x => !p x)).map g).Perm
        (l.map (fun x => if p x then f x else g x))
  | [] => by simp
  | a :: t => by
      by_cases hp : p a = true
      · rw [List.filter_cons_of_pos hp, List.filter_cons_of_neg (by simp [hp])]
        simp only [List.map_cons, List.cons_append, hp, if_true]
        exact (filter_map_split p f g t).cons (f a)
      · have hp' : p a = false := by simpa using hp
        rw [List.filter_cons_of_neg (by simp [hp']),
          List.filter_cons_of_pos (by simp [hp'])]
        simp only [List.map_cons, hp', if_false]
        refine List.Perm.trans List.perm_middle ?_
        exact (filter_map_split p f g t).cons (g a)

/-- When the batched proxy-hash lookup succeeds, the resolutions performed by
processBlobImportRequests are, up to order, exactly one per request, carrying
that request's own outcome. -/
theorem processBlob_events_ok (env : BlobEnv) (requests : List BlobImportReq)
    (hge : env.getBatchError = none) :
    (processBlobImportRequests env requests).events.Perm
      (requests.map (fun r => (r.reqId, outcomeOf env r))) := by
  obtain ⟨h1, h2, h3⟩ := cachePassGo_spec env requests.length requests
    ((requests.map (fun r => r.hash)).map env.proxyOf) 0 [] []
    (by omega) (by simp)
  simp only [List.take_zero, List.drop_zero, List.nil_append] at h2 h3
  have hre : remotePass env
      ((cachePassGo env requests
          ((requests.map (fun r => r.hash)).map env.proxyOf) 0 [] []).requests.zip
        (cachePassGo env requests
          ((requests.map (fun r => r.hash)).map env.proxyOf) 0 [] []).proxyHashes) =
      ((cachePassGo env requests
          ((requests.map (fun r => r.hash)).map env.proxyOf) 0 [] []).requests.zip
        (cachePassGo env requests
          ((requests.map (fun r => r.hash)).map env.proxyOf) 0 [] []).proxyHashes).map
        (remoteEvent env) := rfl
  have hev : (processBlobImportRequests env requests).events =
      (cachePassGo env requests
          ((requests.map (fun r => r.hash)).map env.proxyOf) 0 [] []).events ++
        remotePass env
          ((cachePassGo env requests
              ((requests.map (fun r => r.hash)).map env.proxyOf) 0 [] []).requests.zip
            (cachePassGo env requests
              ((requests.map (fun r => r.hash)).map env.proxyOf) 0 [] []).proxyHashes) := by
    simp [processBlobImportRequests, hge]
  rw [hev, hre]
  refine List.Perm.trans (h3.append (h2.map (remoteEvent env))) ?_
  rw [zip_map_proxy]
  rw [List.filter_map, List.filter_map, List.map_map, List.map_map]
  refine List.Perm.trans
    (filter_map_split (fun r => isHit env (r, env.proxyOf r.hash))
      (fun r => hitEvent env (r, env.proxyOf r.hash))
      (fun r => remoteEvent env (r, env.proxyOf r.hash)) requests) ?_
  have hfun : ∀ r ∈ requests,
      (if isHit env (r, env.proxyOf r.hash) then
        hitEvent env (r, env.proxyOf r.hash)
      else remoteEvent env (r, env.proxyOf r.hash)) =
      (r.reqId, outcomeOf env r) := by
    intro r _
    cases hcr : env.hgCache r.hash (env.proxyOf r.hash) with
    | none => simp [isHit, remoteEvent, outcomeOf, hcr]
    | some b => simp [isHit, hitEvent, outcomeOf, hcr]
  rw [List.map_congr_left hfun]

/-! ## Claims about the blob import pipeline -/

/-- Claim C1: in every processed blob import batch each request's completion
promise is resolved exactly once — the resolution events are, up to order,
exactly one per request of the batch: cache-hit requests are resolved in the
cache pass and removed, every remaining request exactly once by the remote
pass, and on wholesale proxy-lookup failure each is failed once. -/
theorem C1_blob_promise_resolved_exactly_once (env : BlobEnv)
    (requests : List BlobImportReq) :
    ((processBlobImportRequests env requests).events.map Prod.fst).Perm
      (requests.map (fun r => r.reqId)) := by
  cases hge : env.getBatchError with
  | some e =>
      have hev : (processBlobImportRequests env requests).events =
          requests.map (fun r => (r.reqId, Resolution.exc e)) := by
        simp [processBlobImportRequests, hge]
      rw [hev, List.map_map]
      exact List.Perm.refl _
  | none =>
      have h := (processBlob_events_ok env requests hge).map Prod.fst
      rw [List.map_map] at h
      exact h

/-- Claim C2: a failed batched proxy-hash lookup fails every request in the
batch with that same exception and nothing else happens (no hgcache lookup,
no remote fetch); on success each request's resolution is a function of its
own cache probe and its own remote fetch only, so a remote error reaches only
its own request's future. -/
theorem C2_wholesale_failure_and_per_request_isolation (env : BlobEnv)
    (requests : List BlobImportReq) :
    (∀ e, env.getBatchError = some e →
      processBlobImportRequests env requests =
        ⟨requests.map (fun r => (r.reqId, Resolution.exc e)), [], []⟩) ∧
    (env.getBatchError = none →
      (processBlobImportRequests env requests).events.Perm
        (requests.map (fun r => (r.reqId, outcomeOf env r)))) := by
  constructor
  · intro e hge
    simp [processBlobImportRequests, hge]
  · intro hge
    exact processBlob_events_ok env requests hge

/-- A concrete environment whose batched proxy-hash lookup fails. -/
def envWholesale : BlobEnv :=
  ⟨some 7, fun h => h + 100, fun _ _ => none, fun p => Except.ok p⟩

theorem C2_wholesale_witness :
    processBlobImportRequests envWholesale
        [⟨1, 10⟩, ⟨2, 11⟩] =
      ⟨[(10, Resolution.exc 7), (11, Resolution.exc 7)], [], []⟩ :=
  (C2_wholesale_failure_and_per_request_isolation envWholesale
    [⟨1, 10⟩, ⟨2, 11⟩]).1 7 rfl

/-- Claim C3: throughout the local-cache pass the request and proxy vectors
keep equal lengths, every surviving pair of the lockstep swap-and-pop is one
of the original request-proxy pairs, and hence at the call made by
processBlobImportRequests every surviving request is paired with the proxy
hash of its own hash for the remote pass. -/
theorem C3_swap_and_pop_lockstep (env : BlobEnv) (reqs : List BlobImportReq)
    (proxies : List ProxyHash) (i : Nat) (events : List (Nat × Resolution))
    (lookups : List (Hash × ProxyHash))
    (hlen : reqs.length = proxies.length) :
    (cachePassGo env reqs proxies i events lookups).requests.length =
      (cachePassGo env reqs proxies i events lookups).proxyHashes.length ∧
    ((cachePassGo env reqs proxies i events lookups).requests.zip
        (cachePassGo env reqs proxies i events lookups).proxyHashes).Subperm
      (reqs.zip proxies) ∧
    (∀ rp ∈ (cachePassGo env reqs
          ((reqs.map (fun r => r.hash)).map env.proxyOf) 0 [] []).requests.zip
        (cachePassGo env reqs
          ((reqs.map (fun r => r.hash)).map env.proxyOf) 0 [] []).proxyHashes,
      rp.2 = env.proxyOf rp.1.hash) := by
  obtain ⟨h1, h2, _⟩ := cachePassGo_spec env reqs.length reqs proxies i events
    lookups (by omega) hlen
  refine ⟨h1, ?_, ?_⟩
  · refine h2.subperm.trans (List.Sublist.subperm ?_)
    have hs : List.Sublist (((reqs.zip proxies).drop i).filter (isMiss env))
        ((reqs.zip proxies).drop i) := List.filter_sublist _
    have hs2 := hs.append_left ((reqs.zip proxies).take i)
    simpa [List.take_append_drop] using hs2
  · intro rp hrp
    obtain ⟨_, g2, _⟩ := cachePassGo_spec env reqs.length reqs
      ((reqs.map (fun r => r.hash)).map env.proxyOf) 0 [] [] (by omega) (by simp)
    simp only [List.take_zero, List.drop_zero, List.nil_append] at g2
    have hmem : rp ∈ (reqs.zip
        ((reqs.map (fun r => r.hash)).map env.proxyOf)).filter (isMiss env) :=
      g2.mem_iff.mp hrp
    have hmem2 := List.mem_of_mem_filter hmem
    rw [zip_map_proxy] at hmem2
    obtain ⟨r, _, rfl⟩ := List.mem_map.mp hmem2
    rfl

/-- A concrete environment whose hgcache holds everything. -/
def envCacheAll : BlobEnv :=
  ⟨none, fun h => h + 100, fun _ _ => some 5, fun p => Except.ok p⟩

theorem C3_lockstep_witness :
    (cachePassGo envCacheAll [⟨1, 10⟩] [101] 0 [] []).requests.length =
      (cachePassGo envCacheAll [⟨1, 10⟩] [101] 0 [] []).proxyHashes.length :=
  (C3_swap_and_pop_lockstep envCacheAll [⟨1, 10⟩] [101] 0 [] [] rfl).1

/-- Claim C4: getBlob computes a fresh proxy hash and probes the local
datapack store synchronously; on a hit it returns an already-resolved future
and enqueues nothing, on a miss it enqueues exactly one BlobImport request
and returns that request's future. -/
theorem C4_getBlob_fast_path (env : StoreEnv) (st : QueueState) (id : Hash)
    (priority : ImportPriority) :
    (∀ b, env.blobLocal id (env.proxyCompute id) = some b →
      getBlob env st id priority = (SemiFuture.resolved b, st)) ∧
    (env.blobLocal id (env.proxyCompute id) = none →
      getBlob env st id priority =
        (SemiFuture.pending st.nextReqId,
          ⟨st.queue ++ [HgImportRequest.blobImport id priority st.nextReqId],
            st.nextReqId + 1⟩)) := by
  constructor
  · intro b hb
    simp [getBlob, hb]
  · intro hb
    simp [getBlob, hb]

/-- A concrete local datapack store holding hash 1 only. -/
def storeEnvHit : StoreEnv :=
  ⟨fun h => h + 100, fun h _ => if h = 1 then some 42 else none⟩

theorem C4_getBlob_witness :
    getBlob storeEnvHit ⟨[], 0⟩ 1 ImportPriority.kHigh =
      (SemiFuture.resolved 42, ⟨[], 0⟩) :=
  (C4_getBlob_fast_path storeEnvHit ⟨[], 0⟩ 1 ImportPriority.kHigh).1 42 rfl

/-- Claim C10: prefetchBlobs enqueues its Prefetch request with kNormal
priority for every input hash list and every queue state — it has no priority
parameter — while getTree passes the caller-chosen priority through. -/
theorem C10_prefetch_always_normal_priority (st : QueueState)
    (ids : List Hash) (id : Hash) (p : ImportPriority) :
    (prefetchBlobs st ids).2.queue =
      st.queue ++
        [HgImportRequest.prefetchReq ids ImportPriority.kNormal st.nextReqId] ∧
    (getTree st id p).2.queue =
      st.queue ++ [HgImportRequest.treeImport id p st.nextReqId] :=
  ⟨rfl, rfl⟩

/-! ## Claims about the queue and the worker loop -/

theorem dequeueBatch_homogeneous (queue : List HgImportRequest)
    (maxBatch : Nat) :
    ∀ a ∈ dequeueBatch queue maxBatch, ∀ b ∈ dequeueBatch queue maxBatch,
      a.kind = b.kind := by
  cases queue with
  | nil =>
      intro a ha
      simp [dequeueBatch] at ha
  | cons h0 t =>
      intro a ha b hb
      simp only [dequeueBatch] at ha hb
      have ha' : a ∈ (h0 :: t).takeWhile (fun r => r.kind == h0.kind) :=
        List.mem_of_mem_take ha
      have hb' : b ∈ (h0 :: t).takeWhile (fun r => r.kind == h0.kind) :=
        List.mem_of_mem_take hb
      have hka : a.kind = h0.kind := by
        simpa using List.mem_takeWhile_imp ha'
      have hkb : b.kind = h0.kind := by
        simpa using List.mem_takeWhile_imp hb'
      rw [hka, hkb]

theorem processRequest_stopped (q : HgImportRequestQueue) (maxBatch : Nat)
    (hs : q.stopped = true) : processRequest q maxBatch = [] := by
  have hd : dequeue q maxBatch = ([], q) := by simp [dequeue, hs]
  unfold processRequest
  split
  · rfl
  · rename_i first rest q' heq
    rw [hd] at heq
    simp at heq

/-- Claim C5: every non-empty batch returned by dequeue is
variant-homogeneous, and the worker loop routes the entire batch to the
processor selected by the variant of the batch's first element. -/
theorem C5_homogeneous_batch_routing (q : HgImportRequestQueue)
    (maxBatch : Nat) :
    (∀ a ∈ (dequeue q maxBatch).1, ∀ b ∈ (dequeue q maxBatch).1,
      a.kind = b.kind) ∧
    (∀ first rest, (dequeue q maxBatch).1 = first :: rest →
      routeBatch (first :: rest) =
        some (processorOfReq first, first :: rest)) := by
  constructor
  · by_cases hs : q.stopped = true
    · intro a ha
      simp [dequeue, hs] at ha
    · intro a ha b hb
      simp only [dequeue, hs, Bool.false_eq_true, if_false] at ha hb
      exact dequeueBatch_homogeneous q.pending maxBatch a ha b hb
  · intro first rest _
    rfl

/-- A concrete queue with a blob run at the head followed by a tree import. -/
def sampleQueue : HgImportRequestQueue :=
  ⟨false, [HgImportRequest.blobImport 1 ImportPriority.kNormal 0,
    HgImportRequest.blobImport 2 ImportPriority.kNormal 1,
    HgImportRequest.treeImport 3 ImportPriority.kNormal 2]⟩

theorem C5_routing_witness :
    routeBatch [HgImportRequest.blobImport 1 ImportPriority.kNormal 0,
        HgImportRequest.blobImport 2 ImportPriority.kNormal 1] =
      some (ProcessorKind.blobProcessor,
        [HgImportRequest.blobImport 1 ImportPriority.kNormal 0,
          HgImportRequest.blobImport 2 ImportPriority.kNormal 1]) :=
  (C5_homogeneous_batch_routing sampleQueue 5).2
    (HgImportRequest.blobImport 1 ImportPriority.kNormal 0)
    [HgImportRequest.blobImport 2 ImportPriority.kNormal 1]
    (by decide)

/-- Claim C6: once stop has been called every dequeue returns the empty batch
leaving the queue unchanged, a worker's processRequest loop exits immediately
on the empty batch without processing anything, and the destructor's
stop-then-join sequence leaves every one of the joined workers processing
nothing after the stop. -/
theorem C6_stop_then_join_drains (q : HgImportRequestQueue) (maxBatch : Nat)
    (numberThreads : Nat) :
    (q.stopped = true → dequeue q maxBatch = ([], q)) ∧
    (q.stopped = true → processRequest q maxBatch = []) ∧
    destructorDrain q maxBatch numberThreads =
      List.replicate numberThreads [] := by
  refine ⟨?_, ?_, ?_⟩
  · intro hs
    simp [dequeue, hs]
  · intro hs
    exact processRequest_stopped q maxBatch hs
  · unfold destructorDrain
    have hf : (fun _ : Nat => processRequest q.stop maxBatch) =
        fun _ : Nat => ([] : List (ProcessorKind × List HgImportRequest)) :=
      funext fun _ => processRequest_stopped q.stop maxBatch rfl
    rw [hf, List.map_const', List.length_range]

theorem C6_stop_witness :
    dequeue (HgImportRequestQueue.stop sampleQueue) 5 =
      ([], HgImportRequestQueue.stop sampleQueue) :=
  (C6_stop_then_join_drains (HgImportRequestQueue.stop sampleQueue) 5 3).1 rfl

/-! ## Claims about the FuseChannel -/

theorem applyChanEvent_fired (st : ChannelState) (e : ChanEvent) :
    (applyChanEvent st e).sessionCompleteFired = st.sessionCompleteFired := by
  cases e with
  | initDone ok =>
      by_cases h : st.initResult = none <;> simp [applyChanEvent, h]
  | requestStarted => rfl
  | requestFinished => rfl
  | threadStopped => rfl

theorem maybeDispatch_initResult (n : Nat) (st : ChannelState) :
    (maybeDispatchSessionComplete n st).initResult = st.initResult := by
  unfold maybeDispatchSessionComplete
  split <;> rfl

theorem maybeDispatch_stoppedThreads (n : Nat) (st : ChannelState) :
    (maybeDispatchSessionComplete n st).stoppedThreads = st.stoppedThreads := by
  unfold maybeDispatchSessionComplete
  split <;> rfl

theorem maybeDispatch_liveRequests (n : Nat) (st : ChannelState) :
    (maybeDispatchSessionComplete n st).liveRequests = st.liveRequests := by
  unfold maybeDispatchSessionComplete
  split <;> rfl

theorem chanStep_fired_mono (n : Nat) (st : ChannelState) (e : ChanEvent)
    (h : st.sessionCompleteFired = true) :
    (chanStep n st e).sessionCompleteFired = true := by
  unfold chanStep maybeDispatchSessionComplete
  split
  · rfl
  · rw [applyChanEvent_fired]
    exact h

theorem countFires_of_fired (n : Nat) :
    ∀ (es : List ChanEvent) (st : ChannelState),
      st.sessionCompleteFired = true → countFires n st es = 0
  | [], _, _ => rfl
  | e :: es, st, h => by
      unfold countFires
      rw [if_neg (by simp [h])]
      rw [countFires_of_fired n es (chanStep n st e)
        (chanStep_fired_mono n st e h)]

theorem countFires_le_one (n : Nat) :
    ∀ (es : List ChanEvent) (st : ChannelState), countFires n st es ≤ 1
  | [], _ => by simp [countFires]
  | e :: es, st => by
      unfold countFires
      by_cases hf : st.sessionCompleteFired = false ∧
          (chanStep n st e).sessionCompleteFired = true
      · rw [if_pos hf, countFires_of_fired n es (chanStep n st e) hf.2]
      · rw [if_neg hf]
        simpa using countFires_le_one n es (chanStep n st e)

theorem applyChanEvent_no_init_success (st : ChannelState) (e : ChanEvent)
    (hb : ∀ b, e = ChanEvent.initDone b → b = false)
    (h1 : st.initResult ≠ some true) :
    (applyChanEvent st e).initResult ≠ some true := by
  cases e with
  | initDone b =>
      have := hb b rfl
      subst this
      by_cases hn : st.initResult = none <;> simp [applyChanEvent, hn, h1]
  | requestStarted => exact h1
  | requestFinished => exact h1
  | threadStopped => exact h1

theorem chanStep_no_init_success (n : Nat) (st : ChannelState) (e : ChanEvent)
    (hb : ∀ b, e = ChanEvent.initDone b → b = false)
    (h1 : st.initResult ≠ some true) (h2 : st.sessionCompleteFired = false) :
    (chanStep n st e).initResult ≠ some true ∧
    (chanStep n st e).sessionCompleteFired = false := by
  have happly := applyChanEvent_no_init_success st e hb h1
  constructor
  · unfold chanStep
    rw [maybeDispatch_initResult]
    exact happly
  · unfold chanStep maybeDispatchSessionComplete
    split
    · rename_i hcond
      exact absurd hcond.1 happly
    · rw [applyChanEvent_fired]
      exact h2

theorem runTrace_no_init_success (n : Nat) :
    ∀ (es : List ChanEvent) (st : ChannelState),
      st.initResult ≠ some true → st.sessionCompleteFired = false →
      (∀ b, ChanEvent.initDone b ∈ es → b = false) →
      (runTrace n st es).initResult ≠ some true ∧
      (runTrace n st es).sessionCompleteFired = false
  | [], st, h1, h2, _ => ⟨h1, h2⟩
  | e :: es, st, h1, h2, hall => by
      have hb : ∀ b, e = ChanEvent.initDone b → b = false := by
        intro b hbe
        exact hall b (hbe ▸ List.mem_cons_self e es)
      obtain ⟨g1, g2⟩ := chanStep_no_init_success n st e hb h1 h2
      exact runTrace_no_init_success n es (chanStep n st e) g1 g2
        (fun b hbm => hall b (List.mem_cons_of_mem e hbm))

theorem countFires_no_init_success (n : Nat) :
    ∀ (es : List ChanEvent) (st : ChannelState),
      st.initResult ≠ some true → st.sessionCompleteFired = false →
      (∀ b, ChanEvent.initDone b ∈ es → b = false) →
      countFires n st es = 0
  | [], _, _, _, _ => rfl
  | e :: es, st, h1, h2, hall => by
      have hb : ∀ b, e = ChanEvent.initDone b → b = false := by
        intro b hbe
        exact hall b (hbe ▸ List.mem_cons_self e es)
      obtain ⟨g1, g2⟩ := chanStep_no_init_success n st e hb h1 h2
      unfold countFires
      rw [if_neg (by simp [g2])]
      rw [countFires_no_init_success n es (chanStep n st e) g1 g2
        (fun b hbm => hall b (List.mem_cons_of_mem e hbm))]

theorem applyChanEvent_init_persists (st : ChannelState) (e : ChanEvent)
    (v : Bool) (h : st.initResult = some v) :
    (applyChanEvent st e).initResult = some v := by
  cases e with
  | initDone b => simp [applyChanEvent, h]
  | requestStarted => exact h
  | requestFinished => exact h
  | threadStopped => exact h

theorem runTrace_init_persists (n : Nat) :
    ∀ (es : List ChanEvent) (st : ChannelState) (v : Bool),
      st.initResult = some v → (runTrace n st es).initResult = some v
  | [], _, _, h => h
  | e :: es, st, v, h => by
      have hstep : (chanStep n st e).initResult = some v := by
        unfold chanStep
        rw [maybeDispatch_initResult]
        exact applyChanEvent_init_persists st e v h
      exact runTrace_init_persists n es (chanStep n st e) v hstep

/-- Claim C7: the session-complete signal fires at most once along any event
trace; a step can fire it only when, after the step, initialization has
succeeded, all numThreads workers have stopped and no request is in flight;
if initialization never succeeds the signal never fires (and the failure
stays visible on the initialization future). -/
theorem C7_session_complete_signal (numThreads : Nat) (es : List ChanEvent) :
    countFires numThreads initialChannelState es ≤ 1 ∧
    (∀ (st : ChannelState) (e : ChanEvent),
      st.sessionCompleteFired = false →
      (chanStep numThreads st e).sessionCompleteFired = true →
      (chanStep numThreads st e).initResult = some true ∧
      (chanStep numThreads st e).stoppedThreads = numThreads ∧
      (chanStep numThreads st e).liveRequests = 0) ∧
    ((∀ b, ChanEvent.initDone b ∈ es → b = false) →
      (runTrace numThreads initialChannelState es).sessionCompleteFired =
        false ∧
      countFires numThreads initialChannelState es = 0) ∧
    (∀ (st : ChannelState) (v : Bool), st.initResult = some v →
      (runTrace numThreads st es).initResult = some v) := by
  refine ⟨countFires_le_one numThreads es initialChannelState, ?_, ?_, ?_⟩
  · intro st e h0 h1
    by_cases hcond : (applyChanEvent st e).initResult = some true ∧
        (applyChanEvent st e).stoppedThreads = numThreads ∧
        (applyChanEvent st e).liveRequests = 0 ∧
        (applyChanEvent st e).sessionCompleteFired = false
    · have hstep : chanStep numThreads st e =
          { applyChanEvent st e with sessionCompleteFired := true } := by
        unfold chanStep maybeDispatchSessionComplete
        rw [if_pos hcond]
      rw [hstep]
      exact ⟨hcond.1, hcond.2.1, hcond.2.2.1⟩
    · have hstep : chanStep numThreads st e = applyChanEvent st e := by
        unfold chanStep maybeDispatchSessionComplete
        rw [if_neg hcond]
      rw [hstep, applyChanEvent_fired] at h1
      exact absurd h1 (by simp [h0])
  · intro hall
    have h1 : initialChannelState.initResult ≠ some true := by
      simp [initialChannelState]
    have h2 : initialChannelState.sessionCompleteFired = false := rfl
    exact ⟨(runTrace_no_init_success numThreads es initialChannelState h1 h2
        hall).2,
      countFires_no_init_success numThreads es initialChannelState h1 h2 hall⟩
  · intro st v h
    exact runTrace_init_persists numThreads es st v h

theorem C7_init_failure_witness :
    (runTrace 1 initialChannelState
        [ChanEvent.initDone false, ChanEvent.threadStopped]).sessionCompleteFired =
      false :=
  ((C7_session_complete_signal 1
      [ChanEvent.initDone false, ChanEvent.threadStopped]).2.2.1
    (by intro b hb; simp at hb; exact hb)).1

theorem toLEBytes_length : ∀ (w v : Nat), (toLEBytes w v).length = w
  | 0, _ => rfl
  | w + 1, v => by
      simp [toLEBytes, toLEBytes_length w]

theorem encodeFuseOutHeader_length (h : FuseOutHeader) :
    (encodeFuseOutHeader h).length = fuseOutHeaderSize := by
  simp [encodeFuseOutHeader, toLEBytes_length, fuseOutHeaderSize]

/-- Claim C8: the reply writer stores the header size plus the summed payload
buffer lengths in the header's len field, emits the header followed by the
buffers as one gathered write, and the number of bytes written equals that
computed length. -/
theorem C8_scatter_gather_reply_length (header : FuseOutHeader)
    (buffers : List (List Nat)) :
    (sendRawReply header buffers).1.len =
      fuseOutHeaderSize + (buffers.map List.length).sum ∧
    (sendRawReply header buffers).2 =
      encodeFuseOutHeader (sendRawReply header buffers).1 ++ buffers.flatten ∧
    (sendRawReply header buffers).2.length = (sendRawReply header buffers).1.len := by
  refine ⟨rfl, rfl, ?_⟩
  show (encodeFuseOutHeader
      { header with len := fuseOutHeaderSize + (buffers.map List.length).sum } ++
      buffers.flatten).length = _
  rw [List.length_append, List.length_flatten, encodeFuseOutHeader_length]
  rfl

/-! ## Claim about the import metric watch lists -/

/-- Claim C9: for every declared stage enumerator paired with every declared
object enumerator, getImportWatches returns the corresponding watch list and
never reaches the EDEN_BUG branch; the bug branch is unreachable for
well-typed stage and object values. -/
theorem C9_import_watches_total :
    getImportWatches stagePENDING objBLOB =
      some WatchList.pendingBlobWatches ∧
    getImportWatches stagePENDING objTREE =
      some WatchList.pendingTreeWatches ∧
    getImportWatches stagePENDING objPREFETCH =
      some WatchList.pendingPrefetchWatches ∧
    getImportWatches stageLIVE objBLOB = some WatchList.liveBlobWatches ∧
    getImportWatches stageLIVE objTREE = some WatchList.liveTreeWatches ∧
    getImportWatches stageLIVE objPREFETCH =
      some WatchList.livePrefetchWatches ∧
    (∀ stage object, (stage = stagePENDING ∨ stage = stageLIVE) →
      (object = objBLOB ∨ object = objTREE ∨ object = objPREFETCH) →
      (getImportWatches stage object).isSome = true) := by
  refine ⟨by decide, by decide, by decide, by decide, by decide, by decide, ?_⟩
  intro stage object hs ho
  rcases hs with rfl | rfl <;> rcases ho with rfl | rfl | rfl <;> decide

theorem C9_watch_lookup_witness :
    (getImportWatches stageLIVE objPREFETCH).isSome = true :=
  C9_import_watches_total.2.2.2.2.2.2 stageLIVE objPREFETCH
    (Or.inr rfl) (Or.inr (Or.inr rfl))
